import Mathlib

/-!
Shallow embedding of the Python program
`Market_Behaviours_Markov_Chains_Personalities_project.py`.

Python floats are modelled as exact rationals (`ℚ`); decimal literals such as
`0.025` denote the exact rational they spell.  Every call to `random.random()`
is modelled by an explicit parameter `u : ℚ` standing for the uniform draw in
`[0,1)`, and `random.choices` is modelled by `chooseState`, which reproduces
its cumulative-weight selection given such a draw.
-/

/-- Market regimes: the keys of `MARKET_STATES` and of the transition tables. -/
inductive MarketState
  | up
  | down
  | flat
  | crash
  | boom
deriving DecidableEq, Fintype

/-- Personality types: the keys of `PERSONALITIES`. -/
inductive Personality
  | risk_taker
  | cautious
  | greedy
  | average
deriving DecidableEq, Fintype

/-- Table `PERSONALITIES[p]["stay_in_prob"]` (source lines 10-15).  The Python
dictionaries only have keys `"up"`, `"down"`, `"flat"`; a missing key is
modelled by `none`. -/
def stay_in_prob : Personality → MarketState → Option ℚ
  | .risk_taker, .up => some 0.9
  | .risk_taker, .down => some 0.75
  | .risk_taker, .flat => some 0.8
  | .cautious, .up => some 0.95
  | .cautious, .down => some 0.4
  | .cautious, .flat => some 0.6
  | .greedy, .up => some 0.99
  | .greedy, .down => some 0.65
  | .greedy, .flat => some 0.7
  | .average, .up => some 0.85
  | .average, .down => some 0.5
  | .average, .flat => some 0.65
  | _, .crash => none
  | _, .boom => none

/-- Table `BASE_MARKOV_TRANSITIONS` (source lines 18-24). -/
def BASE_MARKOV_TRANSITIONS : MarketState → MarketState → ℚ
  | .up, .up => 0.4
  | .up, .down => 0.3
  | .up, .flat => 0.25
  | .up, .crash => 0.025
  | .up, .boom => 0.025
  | .down, .up => 0.3
  | .down, .down => 0.4
  | .down, .flat => 0.25
  | .down, .crash => 0.05
  | .down, .boom => 0.0
  | .flat, .up => 0.35
  | .flat, .down => 0.3
  | .flat, .flat => 0.3
  | .flat, .crash => 0.025
  | .flat, .boom => 0.025
  | .crash, .up => 0.4
  | .crash, .down => 0.3
  | .crash, .flat => 0.25
  | .crash, .crash => 0.025
  | .crash, .boom => 0.025
  | .boom, .up => 0.3
  | .boom, .down => 0.25
  | .boom, .flat => 0.4
  | .boom, .crash => 0.025
  | .boom, .boom => 0.025

/-- Table `MARKET_STATES` (source lines 27-33): per-state value multiplier. -/
def MARKET_STATES : MarketState → ℚ
  | .up => 1.1
  | .down => 0.9
  | .flat => 1.0
  | .crash => 0.6
  | .boom => 1.3

/-- Class `Person` (source lines 36-40): a personality, a monetary value
(initially `1000`) and an active flag (initially `True`). -/
structure Person where
  personality : Personality
  value : ℚ
  active : Bool
deriving DecidableEq

/-- Dictionary order in which every transition-table row lists its keys in the
source (each row of `BASE_MARKOV_TRANSITIONS` is written in this key order, and
`dict.copy`/insertion preserves it), used by `random.choices`. -/
def stateOrder : List MarketState := [.up, .down, .flat, .crash, .boom]

/-- Sum of one row of a transition table (Python `sum(row.values())`). -/
def rowSum (row : MarketState → ℚ) : ℚ := (stateOrder.map row).sum

/-- Value `stay_prob` computed at source lines 44-45:
`PERSONALITIES[personality]["stay_in_prob"].get("down" if market_state == "crash" else market_state, 0.6)`. -/
def stayProb (p : Personality) (market_state : MarketState) : ℚ :=
  (stay_in_prob p (if market_state = .crash then .down else market_state)).getD 0.6

/-- Value `base_chance` computed at source lines 49-53: base `0.25`, plus
`0.25` if `market_index < 0.8`, else plus `0.1` if `market_index < 1.0`. -/
def reentry_chance (market_index : ℚ) : ℚ :=
  if market_index < 0.8 then 0.25 + 0.25
  else if market_index < 1.0 then 0.25 + 0.1
  else 0.25

/-- Method `Person.decide` (source lines 42-58); `u` is the one
`random.random()` draw the taken branch performs. -/
def Person.decide (self : Person) (market_state : MarketState) (market_index : ℚ)
    (u : ℚ) : Person :=
  let stay_prob := stayProb self.personality market_state
  if self.active = false then
    if u < reentry_chance market_index then { self with active := true } else self
  else if self.active = true ∧ stay_prob < u then { self with active := false }
  else self

/-- Method `Person.update_value` (source lines 60-63). -/
def Person.update_value (self : Person) (market_state : MarketState) : Person :=
  if self.active = true then
    { self with value := self.value * MARKET_STATES market_state }
  else self

/-- Body of the `if active_ratio < 0.5` block of `adjust_for_participation`
(source lines 71-73): bump `"down"` by `0.05`, floor-decrease `"up"` by `0.03`
and `"boom"` by `0.01`, leave `"flat"` and `"crash"` untouched. -/
def bumpRow (row : MarketState → ℚ) : MarketState → ℚ
  | .up => max 0 (row .up - 0.03)
  | .down => row .down + 0.05
  | .flat => row .flat
  | .crash => row .crash
  | .boom => max 0 (row .boom - 0.01)

/-- Function `adjust_for_participation` (source lines 66-78).  Note the source
renormalizes every row by its total unconditionally, after the conditional
bump. -/
def adjust_for_participation (transitions : MarketState → MarketState → ℚ)
    (active_ratio : ℚ) : MarketState → MarketState → ℚ :=
  fun state =>
    let bumped := if active_ratio < 0.5 then bumpRow (transitions state)
                  else transitions state
    fun key => bumped key / rowSum bumped

/-- Helper for `chooseState`: walk the key list subtracting weights, returning
the first state whose cumulative weight strictly exceeds the target (this is
`bisect.bisect_right` on cumulative weights, as `random.choices` does; the
last key is returned for any larger target, matching `hi = len - 1`). -/
def pickFrom (w : MarketState → ℚ) : List MarketState → ℚ → MarketState
  | [s], _ => s
  | s :: rest, x => if x < w s then s else pickFrom w rest (x - w s)
  | [], _ => .flat

/-- Model of `random.choices(population=keys, weights=values, k=1)[0]`
(source lines 87-91), given the uniform draw `u`: the target is
`u * total` and selection is by cumulative weights over `stateOrder`. -/
def chooseState (w : MarketState → ℚ) (u : ℚ) : MarketState :=
  pickFrom w stateOrder (u * (stateOrder.map w).sum)

/-- Function `simulate_year` (source lines 81-97); `u_state` is the draw used
by `random.choices`, `u_people` the per-person draws consumed by `decide`, in
list order.  Returns the updated people and the sampled `next_state`. -/
def simulate_year (people : List Person) (current_state : MarketState)
    (market_index : ℚ) (u_state : ℚ) (u_people : List ℚ) :
    List Person × MarketState :=
  let active_people := people.filter (fun p => p.active)
  let active_ratio : ℚ := (active_people.length : ℚ) / (people.length : ℚ)
  let adjusted_transitions :=
    adjust_for_participation BASE_MARKOV_TRANSITIONS active_ratio
  let next_state := chooseState (adjusted_transitions current_state) u_state
  ((people.zip u_people).map
      (fun pu => (pu.1.decide next_state market_index pu.2).update_value next_state),
   next_state)

/-- Mutable state of the main loop (source lines 139-145): the people, the
current market state, the running `market_index` and `market_history`. -/
structure SimState where
  people : List Person
  current_state : MarketState
  market_index : ℚ
  market_history : List MarketState
deriving DecidableEq

/-- One iteration of the inner `for _ in range(interval)` loop of the main
program (source lines 156-162): run `simulate_year` (which calls each
person's `decide` with the *current* `market_index`), then multiply
`market_index` by the new state's multiplier and append the state to the
history. -/
def mainStep (st : SimState) (u_state : ℚ) (u_people : List ℚ) : SimState :=
  let res := simulate_year st.people st.current_state st.market_index u_state u_people
  { people := res.1
    current_state := res.2
    market_index := st.market_index * MARKET_STATES res.2
    market_history := st.market_history ++ [res.2] }

/-- Modelled from the spec, amended ordering: the engine samples `nextState`,
has every agent `decide` with the `marketIndex` accumulated through the end of
the *previous* period (excluding the current period's multiplier) and then
`update_value`, and only afterwards multiplies `marketIndex` by
`valueMultiplier(nextState)`. -/
def amendedStep (st : SimState) (u_state : ℚ) (u_people : List ℚ) : SimState :=
  let active_ratio : ℚ :=
    ((st.people.filter (fun p => p.active)).length : ℚ) / (st.people.length : ℚ)
  let next_state :=
    chooseState (adjust_for_participation BASE_MARKOV_TRANSITIONS active_ratio
      st.current_state) u_state
  { people := (st.people.zip u_people).map
      (fun pu => (pu.1.decide next_state st.market_index pu.2).update_value next_state)
    current_state := next_state
    market_index := st.market_index * MARKET_STATES next_state
    market_history := st.market_history ++ [next_state] }

/-- Modelled from the spec, the claimed ordering (spec §4.3 steps 3 then 4):
`marketIndex` is multiplied by `valueMultiplier(nextState)` first, and every
agent's `decide` receives that already-updated cumulative product. -/
def claimedStep (st : SimState) (u_state : ℚ) (u_people : List ℚ) : SimState :=
  let active_ratio : ℚ :=
    ((st.people.filter (fun p => p.active)).length : ℚ) / (st.people.length : ℚ)
  let next_state :=
    chooseState (adjust_for_participation BASE_MARKOV_TRANSITIONS active_ratio
      st.current_state) u_state
  let market_index := st.market_index * MARKET_STATES next_state
  { people := (st.people.zip u_people).map
      (fun pu => (pu.1.decide next_state market_index pu.2).update_value next_state)
    current_state := next_state
    market_index := market_index
    market_history := st.market_history ++ [next_state] }

/-- Run of several periods of the program's main loop (`mainStep` iterated
over a list of per-period draws). -/
def runSim (st : SimState) (draws : List (ℚ × List ℚ)) : SimState :=
  draws.foldl (fun s d => mainStep s d.1 d.2) st

/-- Run of several periods of the spec-claimed engine (`claimedStep` iterated
over a list of per-period draws). -/
def runClaimed (st : SimState) (draws : List (ℚ × List ℚ)) : SimState :=
  draws.foldl (fun s d => claimedStep s d.1 d.2) st

/-- One `decide`/`update_value` period for a single person: the pure per-agent
step of `simulate_year`'s inner loop (source lines 94-96). -/
def personPeriod (q : Person) (per : MarketState × ℚ × ℚ) : Person :=
  (q.decide per.1 per.2.1 per.2.2).update_value per.1

/-- A person's trajectory over a sequence of periods, each period given as
`(market state, market index, uniform draw)`. -/
def runPerson (q : Person) (periods : List (MarketState × ℚ × ℚ)) : Person :=
  periods.foldl personPeriod q

/-- Clamping at source lines 151-153: `if year + interval > 20:
interval = 20 - year`. -/
def clampInterval (year : ℕ) (interval : ℕ) : ℕ :=
  if 20 < year + interval then 20 - year else interval

/-- Skeleton of the `while year < 20` main loop (source lines 148-162) over a
list of requested interval sizes (the successive `input()` values): each pass
clamps the request, then the inner loop simulates one year per unit, appending
exactly one entry to `market_history` and incrementing `year` each time.
Returns the final `(year, length of market_history)`, history length counted
from its second component's start value. -/
def mainLoop : List ℕ → ℕ → ℕ → ℕ × ℕ
  | [], year, hist => (year, hist)
  | r :: rs, year, hist =>
    if year < 20 then
      mainLoop rs (year + clampInterval year r) (hist + clampInterval year r)
    else (year, hist)

/-- Python `round(q, 2)` for an exact rational: round half to even at two
decimal places (the integer-rounding step). -/
def roundHalfEven (q : ℚ) : ℤ :=
  let f := Rat.floor q
  if q - f < 0.5 then f
  else if 0.5 < q - f then f + 1
  else if f % 2 = 0 then f else f + 1

/-- Python `round(q, 2)` over exact rationals. -/
def round2 (q : ℚ) : ℚ := (roundHalfEven (q * 100) : ℚ) / 100

/-- Python `statistics.mean`: exact sum divided by length. -/
def pyMean (vs : List ℚ) : ℚ := vs.sum / (vs.length : ℚ)

/-- Insertion into an ascending list, keeping duplicates. -/
def insertSorted (x : ℚ) : List ℚ → List ℚ
  | [] => [x]
  | y :: ys => if x ≤ y then x :: y :: ys else y :: insertSorted x ys

/-- Ascending sort (model of Python `sorted`; order among equal rationals is
irrelevant since they are equal values). -/
def sortAsc (vs : List ℚ) : List ℚ := vs.foldr insertSorted []

/-- Python `statistics.median`: middle element of the sorted data for odd
length, average of the two middle elements for even length. -/
def pyMedian (vs : List ℚ) : ℚ :=
  let s := sortAsc vs
  let n := vs.length
  if n % 2 = 1 then s.getD (n / 2) 0
  else (s.getD (n / 2 - 1) 0 + s.getD (n / 2) 0) / 2

/-- Python `min` over a nonempty list (0 for the empty list, which the source
never reaches because of its emptiness guards). -/
def pyMin : List ℚ → ℚ
  | [] => 0
  | x :: xs => xs.foldl min x

/-- Python `max` over a nonempty list (0 for the empty list, unreachable in
the source). -/
def pyMax : List ℚ → ℚ
  | [] => 0
  | x :: xs => xs.foldl max x

/-- First-occurrence deduplication helper: the iteration order of
`collections.Counter` keys (insertion order of first occurrences). -/
def dedupAux : List ℚ → List ℚ → List ℚ
  | [], _ => []
  | x :: xs, seen =>
    if seen.any (fun y => decide (y = x)) then dedupAux xs seen
    else x :: dedupAux xs (x :: seen)

/-- Distinct values of a list in order of first occurrence. -/
def dedupFirst (vs : List ℚ) : List ℚ := dedupAux vs []

/-- Model of CPython (3.8 and later) `statistics.mode`:
`Counter(data).most_common(1)[0][0]`, i.e. the first-encountered value of
maximal multiplicity; `none` only for empty data (`StatisticsError`).  On
these Pythons a tie does NOT raise: `heapq.nlargest` is stable, so the first
mode in data order is returned. -/
def pyMode (vs : List ℚ) : Option ℚ :=
  match dedupFirst vs with
  | [] => none
  | c :: cs =>
    some (cs.foldl
      (fun best x =>
        if vs.countP (fun y => decide (y = best)) < vs.countP (fun y => decide (y = x))
        then x else best)
      c)

/-- Result record of `generate_report` (source lines 109-118); the `mode`
field is `none` exactly when the source would report `"No unique mode"`
(i.e. when `statistics.mode` raises). -/
structure Report where
  mean : ℚ
  median : ℚ
  min : ℚ
  max : ℚ
  mode : Option ℚ
deriving DecidableEq

/-- Body of `generate_report` after the `values` list has been formed:
`none` models the `"No data."` early return. -/
def reportOfValues (values : List ℚ) : Option Report :=
  if values.isEmpty then none
  else some
    { mean := round2 (pyMean values)
      median := round2 (pyMedian values)
      min := round2 (pyMin values)
      max := round2 (pyMax values)
      mode := (pyMode values).map round2 }

/-- Function `generate_report` (source lines 105-119): rounds every person's
value to 2 decimals first, then computes every statistic over the rounded
list. -/
def generate_report (people : List Person) : Option Report :=
  reportOfValues (people.map (fun p => round2 p.value))

/-- Lines printed by `stats_report` when the group is nonempty (source lines
126-133); `mode = none` models the `"Mode: No unique mode"` line. -/
structure StatsLines where
  mean : ℚ
  median : ℚ
  mode : Option ℚ
  min : ℚ
  max : ℚ
deriving DecidableEq

/-- Body of `stats_report` after the `values` list has been formed: the
printed people count, and the statistics lines when the group is nonempty
(`none` models the `"No data to show."` branch). -/
def statsOfValues (values : List ℚ) : ℕ × Option StatsLines :=
  (values.length,
   if values.isEmpty then none
   else some
     { mean := round2 (pyMean values)
       median := round2 (pyMedian values)
       mode := (pyMode values).map round2
       min := pyMin values
       max := pyMax values })

/-- Function `stats_report` (source lines 122-135): rounds every person's
value to 2 decimals first, then computes every statistic over the rounded
list. -/
def stats_report (group : List Person) : ℕ × Option StatsLines :=
  statsOfValues (group.map (fun p => round2 p.value))

/-- People whose values are `[1,1,2,2]` (two tied modes). -/
def tiedPeople : List Person :=
  [{ personality := .average, value := 1, active := true },
   { personality := .average, value := 1, active := true },
   { personality := .average, value := 2, active := true },
   { personality := .average, value := 2, active := true }]

/-- People whose values are `[1,1,1,2]` (unique mode `1`). -/
def uniqueModePeople : List Person :=
  [{ personality := .average, value := 1, active := true },
   { personality := .average, value := 1, active := true },
   { personality := .average, value := 1, active := true },
   { personality := .average, value := 2, active := true }]

/-- Initial state of the reference counterexample run: one cautious person
with value `1000`, market starting `flat` with index `1`. -/
def st0 : SimState :=
  { people := [{ personality := .cautious, value := 1000, active := true }]
    current_state := .flat
    market_index := 1
    market_history := [] }

/-- Three periods of draws: each period's state draw is `0.5` (selecting
`"down"` from both the base `flat` row and the participation-adjusted `down`
row) and the person's draw is `0.9` (exit) then `0.4` twice (re-entry
threshold probes). -/
def drawsC1 : List (ℚ × List ℚ) := [(0.5, [0.9]), (0.5, [0.4]), (0.5, [0.4])]

theorem rowSum_eq (row : MarketState → ℚ) :
    rowSum row = row .up + row .down + row .flat + row .crash + row .boom := by
  simp only [rowSum, stateOrder, List.map_cons, List.map_nil, List.sum_cons,
    List.sum_nil]
  ring

theorem rowSum_div (row : MarketState → ℚ) (c : ℚ) :
    rowSum (fun t => row t / c) = rowSum row / c := by
  simp only [rowSum_eq]
  ring

theorem rowSum_bumpRow (row : MarketState → ℚ) :
    rowSum (bumpRow row) =
      max 0 (row .up - 0.03) + (row .down + 0.05) + row .flat + row .crash
        + max 0 (row .boom - 0.01) := by
  rw [rowSum_eq]; rfl

theorem bumpRow_nonneg (row : MarketState → ℚ) (h : ∀ t, 0 ≤ row t)
    (t : MarketState) : 0 ≤ bumpRow row t := by
  cases t
  · exact le_max_left _ _
  · have := h .down
    simp only [bumpRow]
    linarith
  · exact h .flat
  · exact h .crash
  · exact le_max_left _ _

theorem bump_total_pos (row : MarketState → ℚ) (h : ∀ t, 0 ≤ row t) :
    0 < rowSum (bumpRow row) := by
  rw [rowSum_bumpRow]
  have h1 := h .down
  have h2 := h .flat
  have h3 := h .crash
  have m1 : (0:ℚ) ≤ max 0 (row .up - 0.03) := le_max_left _ _
  have m2 : (0:ℚ) ≤ max 0 (row .boom - 0.01) := le_max_left _ _
  linarith

theorem bump_total_le (row : MarketState → ℚ) (h : ∀ t, 0 ≤ row t)
    (hs : rowSum row = 1) : rowSum (bumpRow row) ≤ 1.05 := by
  rw [rowSum_bumpRow]
  rw [rowSum_eq] at hs
  have m1 : max 0 (row .up - 0.03) ≤ row .up := max_le (h .up) (by linarith)
  have m2 : max 0 (row .boom - 0.01) ≤ row .boom := max_le (h .boom) (by linarith)
  linarith

theorem bump_total_ge (row : MarketState → ℚ) (hs : rowSum row = 1) :
    1 ≤ rowSum (bumpRow row) := by
  rw [rowSum_bumpRow]
  rw [rowSum_eq] at hs
  have m1 : row .up - 0.03 ≤ max 0 (row .up - 0.03) := le_max_right _ _
  have m2 : row .boom - 0.01 ≤ max 0 (row .boom - 0.01) := le_max_right _ _
  linarith

theorem adjust_eq_div (T : MarketState → MarketState → ℚ) (r : ℚ)
    (s t : MarketState) :
    adjust_for_participation T r s t =
      (if r < 0.5 then bumpRow (T s) else T s) t
        / rowSum (if r < 0.5 then bumpRow (T s) else T s) := rfl

/-- C3: for every base transition matrix (rows summing to 1, as the data model
requires) and every participation ratio at least `0.5`,
`adjust_for_participation` returns every entry of every source-state row
unchanged. -/
theorem adjust_identity_above_half (T : MarketState → MarketState → ℚ) (r : ℚ)
    (h1 : ∀ s, rowSum (T s) = 1) (hr : 0.5 ≤ r) (s t : MarketState) :
    adjust_for_participation T r s t = T s t := by
  rw [adjust_eq_div, if_neg (not_lt.mpr hr), h1 s, div_one]

/-- Witness for C3 at the program's own base matrix and ratio `0.5`. -/
theorem adjust_identity_above_half_witness :
    adjust_for_participation BASE_MARKOV_TRANSITIONS 0.5 .flat .down
      = BASE_MARKOV_TRANSITIONS .flat .down :=
  adjust_identity_above_half BASE_MARKOV_TRANSITIONS 0.5 (by with_unfolding_all decide) le_rfl
    .flat .down

/-- C4: for every base matrix with non-negative rows summing to 1 and every
participation ratio, every source-state row of the adjusted matrix sums to 1
exactly, hence within `1e-9`. -/
theorem adjust_rows_sum_to_one (T : MarketState → MarketState → ℚ) (r : ℚ)
    (h0 : ∀ s t, 0 ≤ T s t) (h1 : ∀ s, rowSum (T s) = 1) (s : MarketState) :
    rowSum (adjust_for_participation T r s) = 1 ∧
    |rowSum (adjust_for_participation T r s) - 1| ≤ 1 / 1000000000 := by
  have hfun : adjust_for_participation T r s
      = fun t => (if r < 0.5 then bumpRow (T s) else T s) t
          / rowSum (if r < 0.5 then bumpRow (T s) else T s) := rfl
  have hpos : 0 < rowSum (if r < 0.5 then bumpRow (T s) else T s) := by
    split
    · exact bump_total_pos (T s) (h0 s)
    · rw [h1 s]; norm_num
  have key : rowSum (adjust_for_participation T r s) = 1 := by
    rw [hfun, rowSum_div, div_self (ne_of_gt hpos)]
  refine ⟨key, ?_⟩
  rw [key]
  norm_num

/-- Witness for C4 at the program's own base matrix and ratio `0.25`. -/
theorem adjust_rows_sum_to_one_witness :
    rowSum (adjust_for_participation BASE_MARKOV_TRANSITIONS 0.25 .flat) = 1 ∧
    |rowSum (adjust_for_participation BASE_MARKOV_TRANSITIONS 0.25 .flat) - 1|
      ≤ 1 / 1000000000 :=
  adjust_rows_sum_to_one BASE_MARKOV_TRANSITIONS 0.25 (by with_unfolding_all decide) (by with_unfolding_all decide)
    .flat

/-- C5: for every base matrix with non-negative rows summing to 1 and every
participation ratio below `0.5`, the adjusted row has a larger (or equal)
`down` entry, smaller (or equal) `up` and `boom` entries, and no negative
entry. -/
theorem adjust_direction_below_half (T : MarketState → MarketState → ℚ)
    (r : ℚ) (s t : MarketState) (h0 : ∀ s' t', 0 ≤ T s' t')
    (h1 : ∀ s', rowSum (T s') = 1) (hr : r < 0.5) :
    T s .down ≤ adjust_for_participation T r s .down ∧
    adjust_for_participation T r s .up ≤ T s .up ∧
    adjust_for_participation T r s .boom ≤ T s .boom ∧
    0 ≤ adjust_for_participation T r s t := by
  have hu := h0 s .up
  have hd := h0 s .down
  have hf := h0 s .flat
  have hc := h0 s .crash
  have hm := h0 s .boom
  have hsum : T s .up + T s .down + T s .flat + T s .crash + T s .boom = 1 := by
    have := h1 s
    rwa [rowSum_eq] at this
  have hadj : ∀ k, adjust_for_participation T r s k
      = bumpRow (T s) k / rowSum (bumpRow (T s)) := by
    intro k
    rw [adjust_eq_div, if_pos hr]
  have hpos := bump_total_pos (T s) (h0 s)
  have hle := bump_total_le (T s) (h0 s) (h1 s)
  have hge := bump_total_ge (T s) (h1 s)
  refine ⟨?_, ?_, ?_, ?_⟩
  · rw [hadj, le_div_iff₀ hpos]
    have hb : bumpRow (T s) .down = T s .down + 0.05 := rfl
    rw [hb]
    nlinarith [mul_nonneg hd (sub_nonneg.mpr hle)]
  · rw [hadj, div_le_iff₀ hpos]
    have hb : bumpRow (T s) .up = max 0 (T s .up - 0.03) := rfl
    rw [hb]
    apply max_le
    · exact mul_nonneg hu (le_of_lt hpos)
    · nlinarith [mul_nonneg hu (sub_nonneg.mpr hge)]
  · rw [hadj, div_le_iff₀ hpos]
    have hb : bumpRow (T s) .boom = max 0 (T s .boom - 0.01) := rfl
    rw [hb]
    apply max_le
    · exact mul_nonneg hm (le_of_lt hpos)
    · nlinarith [mul_nonneg hm (sub_nonneg.mpr hge)]
  · rw [hadj]
    exact div_nonneg (bumpRow_nonneg (T s) (h0 s) t) (le_of_lt hpos)

/-- Witness for C5 at the program's own base matrix and ratio `0`. -/
theorem adjust_direction_below_half_witness :
    BASE_MARKOV_TRANSITIONS .up .down
        ≤ adjust_for_participation BASE_MARKOV_TRANSITIONS 0 .up .down ∧
    adjust_for_participation BASE_MARKOV_TRANSITIONS 0 .up .up
        ≤ BASE_MARKOV_TRANSITIONS .up .up ∧
    adjust_for_participation BASE_MARKOV_TRANSITIONS 0 .up .boom
        ≤ BASE_MARKOV_TRANSITIONS .up .boom ∧
    0 ≤ adjust_for_participation BASE_MARKOV_TRANSITIONS 0 .up .flat :=
  adjust_direction_below_half BASE_MARKOV_TRANSITIONS 0 .up .flat (by with_unfolding_all decide)
    (by with_unfolding_all decide) (by norm_num)

/-- C6: for an inactive agent, the re-entry chance the single uniform draw is
compared against equals `0.5` when `marketIndex < 0.8`, `0.35` when
`0.8 ≤ marketIndex < 1.0`, and `0.25` when `marketIndex ≥ 1.0`; the agent
becomes active exactly when the draw is strictly below that chance. -/
theorem reentry_chance_thresholds (idx u : ℚ) (q : Person) (s : MarketState)
    (h : q.active = false) :
    (idx < 0.8 → reentry_chance idx = 0.5) ∧
    (0.8 ≤ idx → idx < 1.0 → reentry_chance idx = 0.35) ∧
    (1.0 ≤ idx → reentry_chance idx = 0.25) ∧
    ((q.decide s idx u).active = true ↔ u < reentry_chance idx) := by
  refine ⟨?_, ?_, ?_, ?_⟩
  · intro h1
    rw [reentry_chance, if_pos h1]
    norm_num
  · intro h1 h2
    rw [reentry_chance, if_neg (not_lt.mpr h1), if_pos h2]
    norm_num
  · intro h1
    rw [reentry_chance, if_neg (not_lt.mpr (by linarith : (0.8:ℚ) ≤ idx)),
      if_neg (not_lt.mpr h1)]
  · rcases lt_or_le u (reentry_chance idx) with hu | hu
    · simp [Person.decide, h, hu]
    · simp [Person.decide, h, not_lt.mpr hu]

/-- Witness for C6: an inactive average agent at market index `0.9` with
draw `0.3`. -/
theorem reentry_chance_thresholds_witness :
    ((0.9:ℚ) < 0.8 → reentry_chance 0.9 = 0.5) ∧
    ((0.8:ℚ) ≤ 0.9 → (0.9:ℚ) < 1.0 → reentry_chance 0.9 = 0.35) ∧
    ((1.0:ℚ) ≤ 0.9 → reentry_chance 0.9 = 0.25) ∧
    ((Person.decide { personality := .average, value := 1000, active := false }
        .flat 0.9 0.3).active = true ↔ (0.3:ℚ) < reentry_chance 0.9) :=
  reentry_chance_thresholds 0.9 0.3
    { personality := .average, value := 1000, active := false } .flat rfl

/-- C7: the stay-in probability used by `decide` is the personality table's
`"down"` entry (always present) when the state is `crash`, the table's entry
for the state whenever present, and the default `0.6` on any table miss (in
particular for `boom`); the lookup is a total function and never fails. -/
theorem stayProb_lookup (p : Personality) (s : MarketState) :
    stayProb p .crash = (stay_in_prob p .down).getD 0 ∧
    (stay_in_prob p .down).isSome = true ∧
    (s ≠ .crash → (stay_in_prob p s).isSome = true →
      stayProb p s = (stay_in_prob p s).getD 0) ∧
    (stay_in_prob p (if s = .crash then .down else s) = none →
      stayProb p s = 0.6) ∧
    stayProb p .boom = 0.6 ∧
    stay_in_prob p .boom = none := by
  cases p <;> cases s <;> with_unfolding_all decide

/-- Witness for C7: the cautious/up entry is read from the table, and the
greedy/boom lookup falls back to `0.6`. -/
theorem stayProb_lookup_witness :
    stayProb .cautious .up = 0.95 ∧ stayProb .greedy .boom = 0.6 :=
  ⟨Eq.trans ((stayProb_lookup .cautious .up).2.2.1 (by decide) rfl) rfl,
   (stayProb_lookup .greedy .up).2.2.2.2.1⟩

theorem MARKET_STATES_pos (s : MarketState) : 0 < MARKET_STATES s := by
  cases s <;> norm_num [MARKET_STATES]

theorem decide_value_eq (q : Person) (s : MarketState) (idx u : ℚ) :
    (q.decide s idx u).value = q.value := by
  simp only [Person.decide]
  split_ifs <;> rfl

theorem update_value_pos (q : Person) (s : MarketState) (h : 0 < q.value) :
    0 < (q.update_value s).value := by
  simp only [Person.update_value]
  split_ifs
  · exact mul_pos h (MARKET_STATES_pos s)
  · exact h

theorem runPerson_pos (periods : List (MarketState × ℚ × ℚ)) :
    ∀ q : Person, 0 < q.value → 0 < (runPerson q periods).value := by
  induction periods with
  | nil => intro q h; exact h
  | cons per rest ih =>
    intro q h
    have h2 : 0 < (q.decide per.1 per.2.1 per.2.2).value := by
      rw [decide_value_eq]
      exact h
    exact ih (personPeriod q per) (update_value_pos _ per.1 h2)

/-- C8: an agent starting at value `1000` keeps a strictly positive value
after any sequence of periods, because `update_value` only ever multiplies by
a strictly positive per-state multiplier and otherwise leaves the value
unchanged. -/
theorem agent_value_positive (p : Personality) (s : MarketState)
    (periods : List (MarketState × ℚ × ℚ)) :
    0 < MARKET_STATES s ∧
    0 < (runPerson { personality := p, value := 1000, active := true }
          periods).value :=
  ⟨MARKET_STATES_pos s, runPerson_pos periods _ (by norm_num)⟩

/-- C1 (amended): at each period the engine calls every agent's `decide` with
the `market_index` accumulated through the end of the previous period — NOT
including the current period's multiplier — and multiplies `market_index` by
`valueMultiplier(nextState)` only afterwards. -/
theorem mainStep_is_amendedStep (st : SimState) (u_state : ℚ)
    (u_people : List ℚ) :
    mainStep st u_state u_people = amendedStep st u_state u_people := rfl

/-- Counterexample for C1 as stated: running the program's loop
(`mainStep`, where `decide` sees the pre-update index) for three periods from
the initial state differs from running the claimed ordering (`claimedStep`,
where `decide` sees the already-updated index) on the same draws: after three
`down` periods the program's agent stays out (value `1000`) while the claimed
engine's agent re-enters (value `900`), because at period 3 the program
compares the draw `0.4` against the chance for index `0.81` (`0.35`) whereas
the claimed engine uses index `0.729` (`0.5`). -/
theorem mainStep_claimed_counterexample :
    runSim st0 drawsC1 ≠ runClaimed st0 drawsC1 := by
  with_unfolding_all decide

/-- C2, evaluation at the claim's own inputs: with the `statistics.mode` of
every Python from 3.8 on, the tied values `[1,1,2,2]` yield mode `1` (the
first-encountered most-frequent value) in both report functions — not the
`"No unique mode"` sentinel, which the source's `except StatisticsError`
handler can no longer produce for nonempty data — while `[1,1,1,2]` yields
mode `1` as the claim says. -/
theorem mode_tie_eval :
    generate_report tiedPeople
      = some { mean := 1.5, median := 1.5, min := 1, max := 2, mode := some 1 } ∧
    (stats_report tiedPeople).2
      = some { mean := 1.5, median := 1.5, mode := some 1, min := 1, max := 2 } ∧
    generate_report uniqueModePeople
      = some { mean := 1.25, median := 1, min := 1, max := 2, mode := some 1 } :=
  ⟨by with_unfolding_all rfl, by with_unfolding_all rfl,
   by with_unfolding_all rfl⟩

theorem mainLoop_year_le (reqs : List ℕ) :
    ∀ y h : ℕ, y ≤ 20 → (mainLoop reqs y h).1 ≤ 20 := by
  induction reqs with
  | nil => intro y h hy; exact hy
  | cons r rs ih =>
    intro y h hy
    simp only [mainLoop]
    split
    · apply ih
      unfold clampInterval
      split <;> omega
    · exact hy

theorem mainLoop_hist_eq (reqs : List ℕ) :
    ∀ y h : ℕ, (mainLoop reqs y h).2 + y = (mainLoop reqs y h).1 + h := by
  induction reqs with
  | nil =>
    intro y h
    simp only [mainLoop]
    omega
  | cons r rs ih =>
    intro y h
    simp only [mainLoop]
    split
    · have := ih (y + clampInterval y r) (h + clampInterval y r)
      omega
    · omega

theorem mainLoop_reaches (reqs : List ℕ) :
    ∀ y h : ℕ, y ≤ 20 → (∀ r ∈ reqs, 1 ≤ r) → 20 ≤ reqs.length + y →
      (mainLoop reqs y h).1 = 20 := by
  induction reqs with
  | nil =>
    intro y h hy _ hlen
    simp only [List.length_nil] at hlen
    simp only [mainLoop]
    omega
  | cons r rs ih =>
    intro y h hy hall hlen
    simp only [mainLoop]
    split
    · rename_i hlt
      have hr := hall r (List.mem_cons_self r rs)
      have hc1 : 1 ≤ clampInterval y r := by
        unfold clampInterval
        split <;> omega
      apply ih
      · unfold clampInterval
        split <;> omega
      · intro x hx
        exact hall x (List.mem_cons_of_mem r hx)
      · simp only [List.length_cons] at hlen
        omega
    · rename_i hge
      simp only []
      omega

/-- C9: the loop never simulates past the 20-period horizon (the year counter
stays at most 20), an overshooting request is clamped to the remaining
periods (requesting 15 when 5 remain simulates exactly 5), the history gains
exactly one record per simulated year, and — when every requested interval is
at least 1 and enough requests arrive — the loop ends with exactly 20
periods recorded. -/
theorem horizon_never_exceeded (reqs : List ℕ) (y h : ℕ) (hy : y ≤ 20) :
    (mainLoop reqs y h).1 ≤ 20 ∧
    clampInterval 15 15 = 5 ∧
    (mainLoop reqs y h).2 + y = (mainLoop reqs y h).1 + h ∧
    ((∀ r ∈ reqs, 1 ≤ r) → 20 ≤ reqs.length + y → (mainLoop reqs y h).1 = 20) ∧
    (y = h → (∀ r ∈ reqs, 1 ≤ r) → 20 ≤ reqs.length + y →
      (mainLoop reqs y h).2 = 20) := by
  refine ⟨mainLoop_year_le reqs y h hy, rfl, mainLoop_hist_eq reqs y h,
    mainLoop_reaches reqs y h hy, ?_⟩
  intro hyh hall hlen
  have h1 := mainLoop_reaches reqs y h hy hall hlen
  have h2 := mainLoop_hist_eq reqs y h
  omega

/-- Witness for C9: twenty one-year requests starting from year 0 fill the
horizon and the history exactly. -/
theorem horizon_never_exceeded_witness :
    (mainLoop (List.replicate 20 1) 0 0).1 = 20 ∧
    (mainLoop (List.replicate 20 1) 0 0).2 = 20 :=
  ⟨(horizon_never_exceeded (List.replicate 20 1) 0 0 (by omega)).2.2.2.1
      (by decide) (by decide),
   (horizon_never_exceeded (List.replicate 20 1) 0 0 (by omega)).2.2.2.2
      rfl (by decide) (by decide)⟩

/-- C10: both report operations round every agent's value to 2 decimal places
before computing any statistic, so two agent lists with the same rounded
values produce identical reports even when the raw values differ. -/
theorem reports_use_rounded_values (ps qs : List Person)
    (h : ps.map (fun p => round2 p.value) = qs.map (fun p => round2 p.value)) :
    generate_report ps = generate_report qs ∧
    stats_report ps = stats_report qs := by
  constructor
  · simp only [generate_report, h]
  · simp only [stats_report, h]

/-- Witness for C10: raw values `1.234` and `1.2341` differ but both round to
`1.23`, so the reports coincide. -/
theorem reports_use_rounded_values_witness :
    generate_report [{ personality := .average, value := 1.234, active := true }]
      = generate_report
          [{ personality := .cautious, value := 1.2341, active := false }] ∧
    stats_report [{ personality := .average, value := 1.234, active := true }]
      = stats_report
          [{ personality := .cautious, value := 1.2341, active := false }] :=
  reports_use_rounded_values _ _ (by with_unfolding_all decide)
